import Mathlib

/-!
Verification development for the anycode document-synchronization core.

The Rust sources are shallowly embedded:
* a `ropey::Rope` is a `List Char` (ropey is char-indexed);
* rope operations that panic on out-of-range indices (`Rope::insert`,
  `Rope::remove`, `Rope::slice`, `Rope::line_to_char`, `Rope::char_to_line`)
  are embedded as `Option`-valued functions where `none` models the panic;
* `Vec` stacks (`undo_history`, `redo_history`) are `List`s whose HEAD is the
  TOP of the stack (`push` is `cons`, `pop` takes the head);
* filesystem effects (`File::create`, `Rope::write_to`, `Path::exists`,
  `fs::canonicalize`, reading a file) are passed in as oracle parameters, so
  each fallible operation's outcome is explicit data;
* handler functions are embedded at the registry level: the registry
  `file2code: HashMap<String, Code>` is an association list, and the LSP /
  broadcast collaborators (which do not touch the registry or documents) are
  dropped.
-/

/-- Result of a fallible filesystem operation (`std::io::Result<()>`). -/
inductive IoResult
  | ok
  | err
deriving DecidableEq, Repr

/-- Embeds `Rope::insert(char_idx, text)`.  ropey panics when
`char_idx > len_chars()`; the panic is `none`. -/
def ropeInsert (b : List Char) (i : Nat) (t : List Char) : Option (List Char) :=
  if i ≤ b.length then some (b.take i ++ t ++ b.drop i) else none

/-- Embeds `Rope::remove(from..to)`.  ropey panics when `from > to` or
`to > len_chars()`; the panic is `none`. -/
def ropeRemove (b : List Char) (f t : Nat) : Option (List Char) :=
  if f ≤ t ∧ t ≤ b.length then some (b.take f ++ b.drop t) else none

/-- Embeds `Rope::slice(from..to).to_string()`; panics (`none`) under the same
conditions as `ropeRemove`. -/
def ropeSlice (b : List Char) (f t : Nat) : Option (List Char) :=
  if f ≤ t ∧ t ≤ b.length then some ((b.take t).drop f) else none

/-- Char index of the start of line `row`: the position just after the
`row`-th `'\n'` (lines split after `'\n'`, as in ropey).  Meaningful for
`row ≤ count of newlines`; total by scanning. -/
def lineStart : List Char → Nat → Nat
  | _, 0 => 0
  | [], _ + 1 => 0
  | c :: rest, r + 1 =>
    if c = '\n' then 1 + lineStart rest r else 1 + lineStart rest (r + 1)

/-- Embeds `Rope::line_to_char(row)`.  ropey panics when
`row > len_lines()` where `len_lines = count '\n' + 1`; `line_to_char`
of `len_lines` itself is `len_chars`. -/
def lineToChar (b : List Char) (row : Nat) : Option Nat :=
  if row ≤ b.count '\n' then some (lineStart b row)
  else if row = b.count '\n' + 1 then some b.length
  else none

/-- Number of UTF-16 code units of one char (`char::encode_utf16`): 1 for the
Basic Multilingual Plane, 2 (a surrogate pair) above it. -/
def utf16Count (c : Char) : Nat :=
  if c.toNat < 0x10000 then 1 else 2

/-- Embeds `s.encode_utf16().count()`: total UTF-16 code units of a string. -/
def utf16Len (l : List Char) : Nat :=
  (l.map utf16Count).sum

/-- Embeds Rust `enum Operation { Insert, Remove, Start, End }` from
`code.rs`. -/
inductive Operation
  | Insert
  | Remove
  | Start
  | End
deriving DecidableEq, Repr

/-- Embeds `struct Change` from `code.rs`. -/
structure Change where
  start : Nat
  operation : Operation
  text : List Char
  row : Nat
  column : Nat
deriving DecidableEq, Repr

/-- Embeds `struct MultipleChange` from `code.rs`. -/
structure MultipleChange where
  changes : List Change
deriving DecidableEq, Repr

/-- Embeds `struct Code` from `code.rs`.  String metadata fields stay
`String`; the rope is a `List Char`. -/
structure Code where
  file_name : String
  abs_path : String
  lang : String
  text : List Char
  changed : Bool
  undo_history : List Change
  redo_history : List Change
deriving DecidableEq, Repr

/-- Embeds `Code::new()`. -/
def Code.new : Code :=
  { file_name := ""
    abs_path := ""
    lang := ""
    text := []
    changed := false
    undo_history := []
    redo_history := [] }

/-- Embeds the private `Code::insert`: rope splice plus `changed = true`. -/
def Code.insert (c : Code) (t : List Char) (f : Nat) : Option Code :=
  (ropeInsert c.text f t).map fun b => { c with text := b, changed := true }

/-- Embeds the private `Code::remove`: rope removal plus `changed = true`. -/
def Code.remove (c : Code) (f t : Nat) : Option Code :=
  (ropeRemove c.text f t).map fun b => { c with text := b, changed := true }

/-- Embeds `Code::insert_text(text, row, column)`. -/
def Code.insert_text (c : Code) (t : List Char) (row column : Nat) : Option Code :=
  (lineToChar c.text row).bind fun ls =>
    let f := ls + column
    (c.insert t f).map fun c1 =>
      { c1 with
        undo_history :=
          { start := f, operation := Operation.Insert, text := t,
            row := row, column := column } :: c1.undo_history
        redo_history := [] }

/-- Embeds `Code::insert_text2(text, offset)`. -/
def Code.insert_text2 (c : Code) (t : List Char) (offset : Nat) : Option Code :=
  (c.insert t offset).map fun c1 =>
    { c1 with
      undo_history :=
        { start := offset, operation := Operation.Insert, text := t,
          row := 0, column := 0 } :: c1.undo_history
      redo_history := [] }

/-- Embeds `Code::remove_text(row, col, row1, col1)`. -/
def Code.remove_text (c : Code) (row col row1 col1 : Nat) : Option Code :=
  (lineToChar c.text row).bind fun ls =>
    (lineToChar c.text row1).bind fun ls1 =>
      let f := ls + col
      let t := ls1 + col1
      (ropeSlice c.text f t).bind fun tx =>
        (c.remove f t).map fun c1 =>
          { c1 with
            undo_history :=
              { start := f, operation := Operation.Remove, text := tx,
                row := row1, column := col1 } :: c1.undo_history
            redo_history := [] }

/-- Embeds `Code::remove_text2(from, to)`. -/
def Code.remove_text2 (c : Code) (f t : Nat) : Option Code :=
  (ropeSlice c.text f t).bind fun tx =>
    (c.remove f t).map fun c1 =>
      { c1 with
        undo_history :=
          { start := f, operation := Operation.Remove, text := tx,
            row := 0, column := 0 } :: c1.undo_history
        redo_history := [] }

/-- The loop body of `Code::undo`, with the still-unpopped part of the undo
stack passed explicitly (the `Code`'s `undo_history` field is synchronized to
it at every exit point, exactly as in the Rust, where popping mutates the
field in place).  `mc` accumulates the result set, `m` is the `multiple`
group-flag.  Outer `none` is a panic inside a rope operation; inner `none`
is the Rust function returning `None`. -/
def undoGo : List Change → Code → MultipleChange → Bool →
    Option (Code × Option MultipleChange)
  | [], c, _, _ => some ({ c with undo_history := [] }, none)
  | ch :: rest, c, mc, m =>
    match ch.operation with
    | Operation.Insert =>
      (ropeRemove c.text ch.start (ch.start + ch.text.length)).bind fun b =>
        let c1 := { c with
          text := b, changed := true, redo_history := ch :: c.redo_history }
        let mc1 : MultipleChange := ⟨mc.changes ++ [ch]⟩
        if m then undoGo rest c1 mc1 m
        else some ({ c1 with undo_history := rest }, some mc1)
    | Operation.Remove =>
      (ropeInsert c.text ch.start ch.text).bind fun b =>
        let c1 := { c with
          text := b, changed := true, redo_history := ch :: c.redo_history }
        let mc1 : MultipleChange := ⟨mc.changes ++ [ch]⟩
        if m then undoGo rest c1 mc1 m
        else some ({ c1 with undo_history := rest }, some mc1)
    | Operation.End => undoGo rest c mc true
    | Operation.Start => some ({ c with undo_history := rest }, some mc)

/-- Embeds `Code::undo`. -/
def Code.undo (c : Code) : Option (Code × Option MultipleChange) :=
  undoGo c.undo_history c ⟨[]⟩ false

/-- The loop body of `Code::redo`, mirroring `undoGo` with the stacks swapped
and the forward direction applied. -/
def redoGo : List Change → Code → MultipleChange → Bool →
    Option (Code × Option MultipleChange)
  | [], c, _, _ => some ({ c with redo_history := [] }, none)
  | ch :: rest, c, mc, m =>
    match ch.operation with
    | Operation.Insert =>
      (ropeInsert c.text ch.start ch.text).bind fun b =>
        let c1 := { c with
          text := b, changed := true, undo_history := ch :: c.undo_history }
        let mc1 : MultipleChange := ⟨mc.changes ++ [ch]⟩
        if m then redoGo rest c1 mc1 m
        else some ({ c1 with redo_history := rest }, some mc1)
    | Operation.Remove =>
      (ropeRemove c.text ch.start (ch.start + ch.text.length)).bind fun b =>
        let c1 := { c with
          text := b, changed := true, undo_history := ch :: c.undo_history }
        let mc1 : MultipleChange := ⟨mc.changes ++ [ch]⟩
        if m then redoGo rest c1 mc1 m
        else some ({ c1 with redo_history := rest }, some mc1)
    | Operation.End => redoGo rest c mc true
    | Operation.Start => some ({ c with redo_history := rest }, some mc)

/-- Embeds `Code::redo`. -/
def Code.redo (c : Code) : Option (Code × Option MultipleChange) :=
  redoGo c.redo_history c ⟨[]⟩ false

/-- Embeds `Code::replace_text(row, col, row1, col1, text)`. -/
def Code.replace_text (c : Code) (row col row1 col1 : Nat) (tx : List Char) :
    Option Code :=
  (lineToChar c.text row).bind fun ls =>
    let f := ls + col
    let c1 := { c with
      undo_history :=
        { start := f, operation := Operation.Start, text := [],
          row := row1, column := col1 } :: c.undo_history }
    (c1.remove_text row col row1 col1).bind fun c2 =>
      (c2.insert_text tx row col).map fun c3 =>
        { c3 with
          undo_history :=
            { start := f, operation := Operation.End, text := [],
              row := row1, column := col1 } :: c3.undo_history
          redo_history := [] }

/-- Embeds `Code::from_str`. -/
def Code.from_str (t : List Char) : Option Code :=
  Code.new.insert_text t 0 0

/-- Embeds the `Ok` branch of `Code::from_file`: `contents` is what
`Rope::from_reader` read from disk, and `file_name`, `abs_path`, `lang` are
the results of `get_file_name`, `abs_file` and the language detection, all
oracle parameters here. -/
def Code.from_file (contents : List Char) (file_name abs_path lang : String) :
    Code :=
  { file_name := file_name
    abs_path := abs_path
    lang := lang
    text := contents
    changed := false
    undo_history := []
    redo_history := [] }

/-- Embeds `Code::set_text`: fresh rope, insert all of `t`, mark changed.
The histories are untouched by the source. -/
def Code.set_text (c : Code) (t : List Char) : Code :=
  { c with text := t, changed := true }

/-- Embeds `Code::set_file_name`. -/
def Code.set_file_name (c : Code) (f : String) : Code :=
  { c with file_name := f }

/-- Embeds `Code::save_file`.  The two fallible filesystem steps are oracle
parameters: `create_result` is the outcome of `File::create(&self.abs_path)`
and `write_result` the outcome of `self.text.write_to(..)`.  Note the source
sets `self.changed = false` BEFORE returning `saved`, regardless of whether
the write succeeded. -/
def Code.save_file (c : Code) (create_result write_result : IoResult) :
    Code × IoResult :=
  if !c.changed then (c, IoResult.ok)
  else
    match create_result with
    | IoResult.err => (c, IoResult.err)
    | IoResult.ok =>
      let saved := write_result
      ({ c with changed := false }, saved)

/-- Embeds `Code::ensure_file_exists`.  `fs_exists` is the outcome of
`Path::new(&self.file_name).exists()`; `mkdir_result` of
`fs::create_dir_all`; `create_result` of `fs::File::create`;
`abs_result` of `utils::abs_file(&self.file_name)`.  Only the
not-yet-existing branch ever assigns `abs_path`. -/
def Code.ensure_file_exists (c : Code) (fs_exists : Bool)
    (mkdir_result create_result : IoResult) (abs_result : Option String) :
    Code × IoResult :=
  if fs_exists then (c, IoResult.ok)
  else
    match mkdir_result with
    | IoResult.err => (c, IoResult.err)
    | IoResult.ok =>
      match create_result with
      | IoResult.err => (c, IoResult.err)
      | IoResult.ok =>
        match abs_result with
        | none => (c, IoResult.err)
        | some p => ({ c with abs_path := p }, IoResult.ok)

/-- Embeds `Code::position(offset)`: `char_to_line` then
`offset - line_to_char(line)`.  ropey's `char_to_line` panics (`none`) when
`offset > len_chars`. -/
def Code.position (c : Code) (offset : Nat) : Option (Nat × Nat) :=
  if offset ≤ c.text.length then
    let li := (c.text.take offset).count '\n'
    some (li, offset - lineStart c.text li)
  else none

/-- Modelled from the spec: `utf16OffsetToCharOffset` of the backend's
`Code` (the method `utf16_to_char_offset` called by `handle_change` lives in
`anycode-backend/src/code.rs`, which is not among the provided sources).
Per the spec it scans characters from the start of the buffer, accumulating
UTF-16 unit counts, until the cumulative count reaches the flat UTF-16
offset, and returns the corresponding character count. -/
def utf16_to_char_offset : List Char → Nat → Nat
  | [], _ => 0
  | c :: rest, off =>
    if off = 0 then 0 else 1 + utf16_to_char_offset rest (off - utf16Count c)

/-- Association-list lookup for the registry `file2code`
(`HashMap<String, Code>` keyed by path strings). -/
def rget : List (String × Code) → String → Option Code
  | [], _ => none
  | (k, v) :: t, key => if k = key then some v else rget t key

/-- Association-list insert-or-update for the registry, modelling both
`entry(..).or_insert..` insertion and subsequent in-place mutation of the
entry through the returned reference. -/
def rset : List (String × Code) → String → Code → List (String × Code)
  | [], key, v => [(key, v)]
  | (k, w) :: t, key, v =>
    if k = key then (key, v) :: t else (k, w) :: rset t key v

/-- Embeds `get_or_create_code` from `anycode-backend/src/app_state.rs`.
`load` is the outcome of `Code::from_file(path, config)`.  On a vacant entry
with a failed load, the `?` propagates the error WITHOUT inserting; the
result's `none` models the returned `Err`. -/
def get_or_create_code (f2c : List (String × Code)) (path : String)
    (load : Option Code) : List (String × Code) × Option Code :=
  match rget f2c path with
  | some c => (f2c, some c)
  | none =>
    match load with
    | some c => (rset f2c path c, some c)
    | none => (f2c, none)

/-- Embeds `handle_file_open` of `anycode-backend-rust` at the registry
level.  `canon` is `utils::abs_file` (i.e. `fs::canonicalize`), `load` is
`Code::from_file` keyed by the map key.  The response is `none` for the
error ack and `some content` for the success ack; the OUTER `none` models
the `unwrap()` panic on a failed load. -/
def handle_file_open (canon : String → Option String)
    (load : String → Option Code) (f2c : List (String × Code))
    (path : String) :
    Option (List (String × Code) × Option (List Char)) :=
  match canon path with
  | none => some (f2c, none)
  | some file =>
    match rget f2c file with
    | some code => some (f2c, some code.text)
    | none =>
      match load file with
      | some code => some (rset f2c file code, some code.text)
      | none => none

/-- Embeds the registry interaction of `handle_hover` of
`anycode-backend-rust` (`lsp_handler.rs`): the canonical path `canon path`
is computed, but the map entry is keyed by the RAW `request.file`
(`f2c.entry(request.file.clone())`).  Outer `none` models the `unwrap()`
panic on a failed load. -/
def handle_hover (canon : String → Option String)
    (load : String → Option Code) (f2c : List (String × Code))
    (path : String) : Option (List (String × Code)) :=
  match canon path with
  | none => some f2c
  | some _file =>
    match rget f2c path with
    | some _ => some f2c
    | none =>
      match load path with
      | some code => some (rset f2c path code)
      | none => none

/-- Embeds the `operation == 0` (insert) arm of `handle_file_edit` of
`anycode-backend-rust` at the registry level: canonicalize, look up or load
under the canonical key, then `insert_text2(&edit.text, edit.start)`.
Outer `none` models a panic (failed load `unwrap`, or rope out-of-range). -/
def handle_file_edit_ins (canon : String → Option String)
    (load : String → Option Code) (f2c : List (String × Code))
    (path : String) (tx : List Char) (start : Nat) :
    Option (List (String × Code)) :=
  match canon path with
  | none => some f2c
  | some file =>
    match rget f2c file with
    | some code => (code.insert_text2 tx start).map (rset f2c file)
    | none =>
      match load file with
      | some code => (code.insert_text2 tx start).map (rset f2c file)
      | none => none

/-- Embeds the buffer effect of the `operation == 1` (remove) arm of
`handle_file_edit` of `anycode-backend-rust` on an already-located document:
`chars_count = edit.text.chars().count()`, two `position` calls (each can
panic), then `remove_text2(edit.start, edit.start + chars_count)`.  The
message's `start` is used directly as a char offset and the removed span
length is the CHAR count of `text`. -/
def handle_file_edit_remove (c : Code) (start : Nat) (tx : List Char) :
    Option Code :=
  let chars_count := tx.length
  (c.position start).bind fun _ =>
    (c.position (start + chars_count)).bind fun _ =>
      c.remove_text2 start (start + chars_count)

/-- Embeds the buffer effect of the `Operation::Remove` arm of
`handle_change` of `anycode-backend` on an already-located document: the
start offset is converted from UTF-16 units to a char offset, the end offset
is `utf16_to_char_offset` of `start + e.text.encode_utf16().count()`, then
`remove_text2(start_char, end_char)`. -/
def handle_change_remove (c : Code) (start : Nat) (tx : List Char) :
    Option Code :=
  let start_char := utf16_to_char_offset c.text start
  let end_char := utf16_to_char_offset c.text (start + utf16Len tx)
  c.remove_text2 start_char end_char

/-- Embeds `handle_file_set` of `anycode-backend` after a successful
`abs_file`: `f2c.entry(abs_path).or_insert_with(Code::new)`, then on that
entry `set_file_name(abs_path)`, `ensure_file_exists().ok()` (error
discarded), `set_text(text)`, `save_file()`.  `fs_exists` is the
`Path::exists` oracle inside `ensure_file_exists`; `mkdir_result`,
`create_result`, `abs_result` are its other oracles; `create_at` gives the
outcome of `File::create` at a given path string (applied to the entry's
`abs_path` field inside `save_file`), and `write_result` the outcome of
`write_to`.  Returns the updated registry and the success flag of the ack
(`false` = the `error_ack` branch). -/
def handle_file_set (f2c : List (String × Code)) (abs_path : String)
    (tx : List Char) (fs_exists : Bool)
    (mkdir_result create_result : IoResult) (abs_result : Option String)
    (create_at : String → IoResult) (write_result : IoResult) :
    List (String × Code) × Bool :=
  let code0 := (rget f2c abs_path).getD Code.new
  let code1 := code0.set_file_name abs_path
  let code2 :=
    (code1.ensure_file_exists fs_exists mkdir_result create_result
      abs_result).1
  let code3 := code2.set_text tx
  let res := code3.save_file (create_at code3.abs_path) write_result
  (rset f2c abs_path res.1, res.2 = IoResult.ok)

/-- Whether a change entry is a primitive edit (Insert or Remove), as opposed
to a grouping sentinel. -/
def isEdit (ch : Change) : Bool :=
  match ch.operation with
  | Operation.Insert => true
  | Operation.Remove => true
  | _ => false

/-- The buffer effect of undoing one popped change entry: the inverse splice
for Insert/Remove, no effect for the sentinels, `none` on a rope panic.
This restates the per-entry mutation inside `Code::undo`'s loop and is used
to characterize what the loop has applied. -/
def applyInv (b : List Char) (ch : Change) : Option (List Char) :=
  match ch.operation with
  | Operation.Insert => ropeRemove b ch.start (ch.start + ch.text.length)
  | Operation.Remove => ropeInsert b ch.start ch.text
  | _ => some b

/-- Folding `applyInv` over a list of entries in pop order. -/
def applyInvAll : List Char → List Change → Option (List Char)
  | b, [] => some b
  | b, ch :: rest => (applyInv b ch).bind (applyInvAll · rest)

/-- A concrete document whose buffer is `"hello world"` (clean, empty
histories). -/
def docHW : Code :=
  { file_name := ""
    abs_path := "/w/hw.txt"
    lang := "text"
    text := "hello world".data
    changed := false
    undo_history := []
    redo_history := [] }

/-- The document `docHW` with the dirty flag set. -/
def docDirty : Code :=
  { docHW with changed := true }

/-- A concrete document with an unterminated group on the undo stack: a
GroupEnd on top, then a single Insert entry, and no GroupStart below. -/
def docUnterminated : Code :=
  { file_name := ""
    abs_path := ""
    lang := ""
    text := "x".data
    changed := false
    undo_history :=
      [{ start := 0, operation := Operation.End, text := [], row := 0, column := 0 },
       { start := 0, operation := Operation.Insert, text := "x".data, row := 0, column := 0 }]
    redo_history := [] }

/-- A concrete document whose buffer starts with a character outside the
Basic Multilingual Plane (U+1D11E occupies two UTF-16 code units). -/
def docAstral : Code :=
  { file_name := ""
    abs_path := ""
    lang := ""
    text := "𝄞abc".data
    changed := false
    undo_history := []
    redo_history := [] }

/-- A concrete document as `Code::from_file` would load it from disk:
content `"x"`, canonical path `/w/a`. -/
def diskDoc : Code :=
  Code.from_file "x".data "a" "/w/a" "text"

/-- A concrete `fs::canonicalize` oracle: both the relative spelling `./a`
and the absolute spelling `/w/a` canonicalize to `/w/a`. -/
def canonEx : String → Option String :=
  fun p => if p = "./a" ∨ p = "/w/a" then some "/w/a" else none

/-- A concrete `Code::from_file` oracle that always succeeds with
`diskDoc`. -/
def loadEx : String → Option Code :=
  fun _ => some diskDoc

/-- A concrete `Code::from_file` oracle that always fails (e.g. the file is
unreadable). -/
def loadFailEx : String → Option Code :=
  fun _ => none

/-- Registry after `file:open` of the absolute spelling `/w/a` starting from
an empty registry. -/
def reg1 : List (String × Code) :=
  ((handle_file_open canonEx loadEx [] "/w/a").map Prod.fst).getD []

/-- Registry after additionally applying a `file:edit` insert of `"Z"` at
offset 0 addressed through the relative spelling `./a`. -/
def reg2 : List (String × Code) :=
  (handle_file_edit_ins canonEx loadEx reg1 "./a" "Z".data 0).getD []

/-- Registry after additionally handling a hover request addressed through
the relative spelling `./a`. -/
def reg3 : List (String × Code) :=
  (handle_hover canonEx loadEx reg2 "./a").getD []

/-- A concrete `File::create` oracle: creating a file at the empty path
fails (the fresh `Code::new` registry entry has `abs_path == ""`), any other
path succeeds. -/
def createAtEx : String → IoResult :=
  fun s => if s = "" then IoResult.err else IoResult.ok

/-- The document `Code::from_str(t)` evaluates to: buffer `t`, dirty, one
Insert entry in the undo history. -/
def fromStrDoc (t : List Char) : Code :=
  { file_name := ""
    abs_path := ""
    lang := ""
    text := t
    changed := true
    undo_history :=
      [{ start := 0, operation := Operation.Insert, text := t, row := 0, column := 0 }]
    redo_history := [] }

/-- The document obtained by undoing `fromStrDoc t` once: empty buffer, the
Insert entry moved to the redo stack. -/
def fromStrUndone (t : List Char) : Code :=
  { fromStrDoc t with
    text := []
    undo_history := []
    redo_history :=
      [{ start := 0, operation := Operation.Insert, text := t, row := 0, column := 0 }] }

/-- `docHW` with the undo history of two consecutive inserts (`"hello"`,
then `" world"`), as produced by typing them in order. -/
def docHist : Code :=
  { docHW with
    undo_history :=
      [{ start := 5, operation := Operation.Insert, text := " world".data, row := 0, column := 5 },
       { start := 0, operation := Operation.Insert, text := "hello".data, row := 0, column := 0 }] }

/-- The document `docHist` after one `undo()`. -/
def docHistUndone : Code :=
  ((docHist.undo).map Prod.fst).getD Code.new

/-- The document `docHistUndone` after a brand-new (non-redo) edit:
inserting `"!"` at row 0 column 5. -/
def docHistEdited : Code :=
  (docHistUndone.insert_text "!".data 0 5).getD Code.new

/-- The document `docHW` after inserting `"!"` at row 0 column 5. -/
def docHWBang : Code :=
  (docHW.insert_text "!".data 0 5).getD Code.new

lemma code_eta (c : Code) :
    ({ file_name := c.file_name, abs_path := c.abs_path, lang := c.lang,
       text := c.text, changed := c.changed, undo_history := c.undo_history,
       redo_history := c.redo_history } : Code) = c := by
  cases c
  rfl

/-- Calling `redo()` on a document with an empty redo stack reports nothing
to redo and leaves the document unchanged. -/
lemma Code.redo_of_empty (c : Code) (h : c.redo_history = []) :
    c.redo = some (c, none) := by
  obtain ⟨fn, ap, lg, tx, ch, u, r⟩ := c
  simp only at h
  subst h
  rfl

lemma insert_text_clears_redo (c : Code) (t : List Char) (row col : Nat)
    (out : Code) (h : c.insert_text t row col = some out) :
    out.redo_history = [] := by
  simp only [Code.insert_text, Option.bind_eq_some, Option.map_eq_some'] at h
  obtain ⟨ls, hls, c1, hc1, hout⟩ := h
  subst hout
  rfl

lemma insert_text2_clears_redo (c : Code) (t : List Char) (off : Nat)
    (out : Code) (h : c.insert_text2 t off = some out) :
    out.redo_history = [] := by
  simp only [Code.insert_text2, Option.map_eq_some'] at h
  obtain ⟨c1, hc1, hout⟩ := h
  subst hout
  rfl

lemma remove_text_clears_redo (c : Code) (row col row1 col1 : Nat)
    (out : Code) (h : c.remove_text row col row1 col1 = some out) :
    out.redo_history = [] := by
  simp only [Code.remove_text, Option.bind_eq_some, Option.map_eq_some'] at h
  obtain ⟨ls, hls, ls1, hls1, tx, htx, c1, hc1, hout⟩ := h
  subst hout
  rfl

lemma remove_text2_clears_redo (c : Code) (f t : Nat)
    (out : Code) (h : c.remove_text2 f t = some out) :
    out.redo_history = [] := by
  simp only [Code.remove_text2, Option.bind_eq_some, Option.map_eq_some'] at h
  obtain ⟨tx, htx, c1, hc1, hout⟩ := h
  subst hout
  rfl

lemma replace_text_clears_redo (c : Code) (row col row1 col1 : Nat)
    (tx : List Char) (out : Code)
    (h : c.replace_text row col row1 col1 tx = some out) :
    out.redo_history = [] := by
  simp only [Code.replace_text, Option.bind_eq_some, Option.map_eq_some'] at h
  obtain ⟨ls, hls, c2, hc2, c3, hc3, hout⟩ := h
  subst hout
  rfl

/-- C2: if the dirty flag is set and the write to the canonical path fails
(`write_to` returns an error after `File::create` succeeded), `save_file`
nevertheless CLEARS the dirty flag while propagating the error — the source
assigns `self.changed = false` before consulting the write result.  Only a
`File::create` failure leaves the flag unchanged.  This contradicts the
claim that a write failure leaves the dirty flag set. -/
theorem save_file_write_failure_clears_dirty (c : Code) (h : c.changed = true) :
    c.save_file IoResult.ok IoResult.err
        = ({ c with changed := false }, IoResult.err) ∧
    c.save_file IoResult.err IoResult.ok = (c, IoResult.err) := by
  unfold Code.save_file
  rw [h]
  exact ⟨rfl, rfl⟩

/-- Witness for `save_file_write_failure_clears_dirty` at the concrete dirty
document `docDirty`. -/
theorem save_file_write_failure_clears_dirty_witness :
    docDirty.changed = true ∧
    (docDirty.save_file IoResult.ok IoResult.err
        = ({ docDirty with changed := false }, IoResult.err) ∧
     docDirty.save_file IoResult.err IoResult.ok = (docDirty, IoResult.err)) :=
  ⟨by decide, save_file_write_failure_clears_dirty docDirty (by decide)⟩

/-- C6: an insert or remove whose offsets lie beyond the current buffer
bounds is NOT rejected with an error value: the embedded operation yields
`none`, which models the `ropey` out-of-bounds panic inside
`Rope::insert` / `Rope::slice` (the Rust signatures return `()`, offering no
error channel at all). -/
theorem oob_edit_no_error_value :
    (∀ (c : Code) (t : List Char) (off : Nat), c.text.length < off →
      c.insert_text2 t off = none) ∧
    (∀ (c : Code) (f t : Nat), c.text.length < t →
      c.remove_text2 f t = none) := by
  constructor
  · intro c t off h
    simp [Code.insert_text2, Code.insert, ropeInsert, show ¬ off ≤ c.text.length by omega]
  · intro c f t h
    simp [Code.remove_text2, ropeSlice, show ¬ (f ≤ t ∧ t ≤ c.text.length) by omega]

/-- Witness for `oob_edit_no_error_value`: offset 5 into an empty buffer panics for
insert, end offset 3 into an empty buffer panics for remove. -/
theorem oob_edit_no_error_value_witness :
    (Code.new.text.length < 5 ∧ Code.new.insert_text2 "x".data 5 = none) ∧
    (Code.new.text.length < 3 ∧ Code.new.remove_text2 0 3 = none) :=
  ⟨⟨by decide, oob_edit_no_error_value.1 Code.new "x".data 5 (by decide)⟩,
   ⟨by decide, oob_edit_no_error_value.2 Code.new 0 3 (by decide)⟩⟩

/-- C8: every user-facing edit (`insert_text`, `insert_text2`,
`remove_text`, `remove_text2`, `replace_text`) clears the redo stack, and
after an `undo()` followed by a brand-new non-redo edit, `redo()` reports
nothing to redo and leaves the document unchanged. -/
theorem edits_clear_redo :
    (∀ (c : Code) (t : List Char) (row col : Nat) (out : Code),
      c.insert_text t row col = some out → out.redo_history = []) ∧
    (∀ (c : Code) (t : List Char) (off : Nat) (out : Code),
      c.insert_text2 t off = some out → out.redo_history = []) ∧
    (∀ (c : Code) (row col row1 col1 : Nat) (out : Code),
      c.remove_text row col row1 col1 = some out → out.redo_history = []) ∧
    (∀ (c : Code) (f t : Nat) (out : Code),
      c.remove_text2 f t = some out → out.redo_history = []) ∧
    (∀ (c : Code) (row col row1 col1 : Nat) (tx : List Char) (out : Code),
      c.replace_text row col row1 col1 tx = some out → out.redo_history = []) ∧
    (∀ (c : Code) (p : Code × Option MultipleChange), c.undo = some p →
      ∀ (t : List Char) (row col : Nat) (c2 : Code),
        p.1.insert_text t row col = some c2 → c2.redo = some (c2, none)) := by
  refine ⟨insert_text_clears_redo, insert_text2_clears_redo,
    remove_text_clears_redo, remove_text2_clears_redo,
    replace_text_clears_redo, ?_⟩
  intro c p _ t row col c2 h2
  exact Code.redo_of_empty c2 (insert_text_clears_redo p.1 t row col c2 h2)

/-- Witness for `edits_clear_redo`: undo one of two inserts on
`"hello world"`, issue a fresh insert of `"!"`, and redo reports nothing. -/
theorem edits_clear_redo_witness :
    docHW.insert_text "!".data 0 5 = some docHWBang ∧
    docHWBang.redo_history = [] ∧
    docHist.undo = some (docHistUndone,
      some ⟨[{ start := 5, operation := Operation.Insert, text := " world".data,
               row := 0, column := 5 }]⟩) ∧
    docHistUndone.insert_text "!".data 0 5 = some docHistEdited ∧
    docHistEdited.redo = some (docHistEdited, none) :=
  ⟨by decide,
   edits_clear_redo.1 docHW "!".data 0 5 docHWBang (by decide),
   by decide,
   by decide,
   edits_clear_redo.2.2.2.2.2 docHist
     (docHistUndone,
      some ⟨[{ start := 5, operation := Operation.Insert, text := " world".data,
               row := 0, column := 5 }]⟩)
     (by decide) "!".data 0 5 docHistEdited (by decide)⟩

lemma from_str_eq (t : List Char) : Code.from_str t = some (fromStrDoc t) := by
  simp [Code.from_str, Code.insert_text, Code.insert, lineToChar, lineStart,
    ropeInsert, Code.new, fromStrDoc]

lemma fromStrDoc_undo (t : List Char) :
    (fromStrDoc t).undo = some (fromStrUndone t,
      some ⟨[{ start := 0, operation := Operation.Insert, text := t,
               row := 0, column := 0 }]⟩) := by
  simp [Code.undo, undoGo, fromStrDoc, fromStrUndone, ropeRemove,
    List.drop_length]

/-- C10: `Code::from_str(s)` is born dirty with exactly one Insert entry in
its undo history, and a single `undo()` returns a change set and empties the
buffer; `Code::from_file` instead yields a clean document with empty
histories. -/
theorem from_str_born_dirty :
    (∀ t : List Char,
      Code.from_str t = some (fromStrDoc t) ∧
      (fromStrDoc t).changed = true ∧
      (fromStrDoc t).undo_history =
        [{ start := 0, operation := Operation.Insert, text := t,
           row := 0, column := 0 }] ∧
      (fromStrDoc t).redo_history = [] ∧
      (fromStrDoc t).undo = some (fromStrUndone t,
        some ⟨[{ start := 0, operation := Operation.Insert, text := t,
                 row := 0, column := 0 }]⟩) ∧
      (fromStrUndone t).text = []) ∧
    (∀ (contents : List Char) (fn ap lg : String),
      (Code.from_file contents fn ap lg).changed = false ∧
      (Code.from_file contents fn ap lg).undo_history = [] ∧
      (Code.from_file contents fn ap lg).redo_history = []) := by
  constructor
  · intro t
    exact ⟨from_str_eq t, rfl, rfl, rfl, fromStrDoc_undo t, rfl⟩
  · intro contents fn ap lg
    exact ⟨rfl, rfl, rfl⟩

lemma undoGo_unterminated (rest : List Change) :
    ∀ (c : Code) (mc : MultipleChange) (b' : List Char),
      (∀ ch ∈ rest, ch.operation ≠ Operation.Start) →
      applyInvAll c.text rest = some b' →
      ∃ c', undoGo rest c mc true = some (c', none) ∧ c'.text = b' ∧
        c'.undo_history = [] ∧
        c'.redo_history = (rest.filter (fun ch => isEdit ch)).reverse
          ++ c.redo_history := by
  induction rest with
  | nil =>
    intro c mc b' _ hinv
    simp only [applyInvAll] at hinv
    cases hinv
    exact ⟨{ c with undo_history := [] }, rfl, rfl, rfl, by simp⟩
  | cons ch rest ih =>
    intro c mc b' hns hinv
    have hns' : ∀ x ∈ rest, x.operation ≠ Operation.Start := by
      intro x hx
      exact hns x (List.mem_cons_of_mem ch hx)
    rcases ch with ⟨cs, cop, ctx, cr, cc⟩
    cases cop with
    | Insert =>
      simp only [applyInvAll, applyInv, Option.bind_eq_some] at hinv
      obtain ⟨b1, hb1, hrest⟩ := hinv
      simp only [undoGo, hb1, Option.some_bind]
      obtain ⟨c', h1, h2, h3, h4⟩ :=
        ih { c with
              text := b1
              changed := true
              redo_history := ⟨cs, Operation.Insert, ctx, cr, cc⟩ :: c.redo_history }
          ⟨mc.changes ++ [⟨cs, Operation.Insert, ctx, cr, cc⟩]⟩ b' hns' hrest
      refine ⟨c', h1, h2, h3, ?_⟩
      rw [h4]
      simp [isEdit, List.filter_cons]
    | Remove =>
      simp only [applyInvAll, applyInv, Option.bind_eq_some] at hinv
      obtain ⟨b1, hb1, hrest⟩ := hinv
      simp only [undoGo, hb1, Option.some_bind]
      obtain ⟨c', h1, h2, h3, h4⟩ :=
        ih { c with
              text := b1
              changed := true
              redo_history := ⟨cs, Operation.Remove, ctx, cr, cc⟩ :: c.redo_history }
          ⟨mc.changes ++ [⟨cs, Operation.Remove, ctx, cr, cc⟩]⟩ b' hns' hrest
      refine ⟨c', h1, h2, h3, ?_⟩
      rw [h4]
      simp [isEdit, List.filter_cons]
    | End =>
      simp only [applyInvAll, applyInv, Option.some_bind] at hinv
      simp only [undoGo]
      obtain ⟨c', h1, h2, h3, h4⟩ := ih c mc b' hns' hinv
      refine ⟨c', h1, h2, h3, ?_⟩
      rw [h4]
      simp [isEdit, List.filter_cons]
    | Start =>
      exact absurd rfl (hns ⟨cs, Operation.Start, ctx, cr, cc⟩ (List.mem_cons_self _ _))

/-- C7: if `undo()` first pops a GroupEnd (setting the group-flag) and the
undo stack then empties without any GroupStart being seen, `undo()` returns
`None` ("nothing to undo") even though the inverse buffer mutations and the
redo-stack pushes for every Insert/Remove entry processed in that same call
have already been applied and remain in effect. -/
theorem undo_unterminated_group (c : Code) (e : Change) (rest : List Change)
    (b' : List Char)
    (hstk : c.undo_history = e :: rest)
    (he : e.operation = Operation.End)
    (hns : ∀ ch ∈ rest, ch.operation ≠ Operation.Start)
    (hinv : applyInvAll c.text rest = some b') :
    ∃ c', c.undo = some (c', none) ∧ c'.text = b' ∧ c'.undo_history = [] ∧
      c'.redo_history = (rest.filter (fun ch => isEdit ch)).reverse
        ++ c.redo_history := by
  unfold Code.undo
  rw [hstk]
  rcases e with ⟨es, eop, etx, er, ec⟩
  simp only at he
  subst he
  simp only [undoGo]
  exact undoGo_unterminated rest c ⟨[]⟩ b' hns hinv

/-- Witness for `undo_unterminated_group` at `docUnterminated`: the buffer
`"x"` is emptied, the Insert entry lands on the redo stack, and the call
still reports nothing to undo. -/
theorem undo_unterminated_group_witness :
    docUnterminated.undo_history =
      ({ start := 0, operation := Operation.End, text := [], row := 0, column := 0 } :
        Change) ::
      [{ start := 0, operation := Operation.Insert, text := "x".data,
         row := 0, column := 0 }] ∧
    (∀ ch ∈ [({ start := 0, operation := Operation.Insert, text := "x".data,
                row := 0, column := 0 } : Change)],
      ch.operation ≠ Operation.Start) ∧
    applyInvAll docUnterminated.text
      [{ start := 0, operation := Operation.Insert, text := "x".data,
         row := 0, column := 0 }] = some [] ∧
    (∃ c', docUnterminated.undo = some (c', none) ∧ c'.text = [] ∧
      c'.undo_history = [] ∧
      c'.redo_history =
        (([{ start := 0, operation := Operation.Insert, text := "x".data,
             row := 0, column := 0 }] : List Change).filter
          (fun ch => isEdit ch)).reverse ++ docUnterminated.redo_history) :=
  ⟨by decide, by decide, by decide,
   undo_unterminated_group docUnterminated
     { start := 0, operation := Operation.End, text := [], row := 0, column := 0 }
     [{ start := 0, operation := Operation.Insert, text := "x".data,
        row := 0, column := 0 }]
     [] (by decide) (by decide) (by decide) (by decide)⟩

lemma take_mid_of_three (a b c : List Char) :
    (a ++ b ++ c).take (a.length + b.length) = a ++ b := by
  rw [← List.length_append]
  exact List.take_left (a ++ b) c

lemma drop_end_of_three (a b c : List Char) :
    (a ++ b ++ c).drop (a.length + b.length) = c := by
  rw [← List.length_append]
  exact List.drop_left (a ++ b) c

lemma take_head_of_three (a b c : List Char) :
    (a ++ b ++ c).take a.length = a := by
  rw [List.append_assoc]
  exact List.take_left a (b ++ c)

lemma remove_text2_spec (c : Code) (pre mid post : List Char)
    (hbuf : c.text = pre ++ mid ++ post) :
    c.remove_text2 pre.length (pre.length + mid.length) = some
      { c with
        text := pre ++ post
        changed := true
        undo_history :=
          { start := pre.length, operation := Operation.Remove, text := mid,
            row := 0, column := 0 } :: c.undo_history
        redo_history := [] } := by
  have hc2 : pre.length ≤ pre.length + mid.length ∧
      pre.length + mid.length ≤ (pre ++ mid ++ post).length := by
    constructor
    · omega
    · simp [List.length_append]
  unfold Code.remove_text2 ropeSlice Code.remove ropeRemove
  rw [hbuf]
  rw [if_pos hc2]
  rw [take_mid_of_three, List.drop_left]
  simp only [Option.some_bind]
  rw [if_pos hc2]
  rw [take_head_of_three, drop_end_of_three]
  rfl

lemma utf16_to_char_offset_zero (l : List Char) : utf16_to_char_offset l 0 = 0 := by
  cases l <;> simp [utf16_to_char_offset]

lemma utf16Count_pos (ch : Char) : 1 ≤ utf16Count ch := by
  unfold utf16Count
  split <;> omega

lemma utf16Len_append (a b : List Char) :
    utf16Len (a ++ b) = utf16Len a + utf16Len b := by
  simp [utf16Len]

lemma utf16_boundary (l rest : List Char) :
    utf16_to_char_offset (l ++ rest) (utf16Len l) = l.length := by
  induction l with
  | nil => simpa [utf16Len] using utf16_to_char_offset_zero rest
  | cons ch l ih =>
    have hpos := utf16Count_pos ch
    have hlen : utf16Len (ch :: l) = utf16Count ch + utf16Len l := by
      simp [utf16Len]
    simp only [List.cons_append, utf16_to_char_offset, hlen]
    rw [if_neg (by omega)]
    have hsub : utf16Count ch + utf16Len l - utf16Count ch = utf16Len l := by
      omega
    rw [hsub]
    simp only [List.append_eq]
    rw [ih]
    simp only [List.length_cons]
    omega

/-- C5 (amended, for `handle_change` of `anycode-backend`): the removal span
of a "remove" edit is derived in UTF-16 code units — when the buffer is
`pre ++ tx ++ post` and the message's start offset is the UTF-16 length of
`pre`, the handler removes exactly `tx` (the message's start offset being
converted with `utf16_to_char_offset` and the span length being the UTF-16
code-unit count of the carried text).  `handle_file_edit` of
`anycode-backend-rust` does NOT behave this way (see the counterexample
theorem). -/
theorem change_remove_counts_utf16 (c : Code) (pre tx post : List Char)
    (hbuf : c.text = pre ++ tx ++ post) :
    handle_change_remove c (utf16Len pre) tx = some
      { c with
        text := pre ++ post
        changed := true
        undo_history :=
          { start := pre.length, operation := Operation.Remove, text := tx,
            row := 0, column := 0 } :: c.undo_history
        redo_history := [] } := by
  have h1 : utf16_to_char_offset c.text (utf16Len pre) = pre.length := by
    rw [hbuf, List.append_assoc]
    exact utf16_boundary pre (tx ++ post)
  have h2 : utf16_to_char_offset c.text (utf16Len pre + utf16Len tx)
      = pre.length + tx.length := by
    rw [hbuf, ← utf16Len_append]
    rw [utf16_boundary (pre ++ tx) post]
    exact List.length_append pre tx
  show c.remove_text2 (utf16_to_char_offset c.text (utf16Len pre))
    (utf16_to_char_offset c.text (utf16Len pre + utf16Len tx)) = _
  rw [h1, h2]
  exact remove_text2_spec c pre tx post hbuf

/-- Witness for `change_remove_counts_utf16` at `docAstral`
(`"𝄞abc"`, non-BMP first char): a remove of `"a"` at UTF-16 offset 2
removes exactly the `"a"`. -/
theorem change_remove_counts_utf16_witness :
    docAstral.text = "𝄞".data ++ "a".data ++ "bc".data ∧
    handle_change_remove docAstral (utf16Len "𝄞".data) "a".data = some
      { docAstral with
        text := "𝄞".data ++ "bc".data
        changed := true
        undo_history :=
          [{ start := "𝄞".data.length, operation := Operation.Remove,
             text := "a".data, row := 0, column := 0 }]
        redo_history := [] } :=
  ⟨by decide,
   change_remove_counts_utf16 docAstral "𝄞".data "a".data "bc".data (by decide)⟩

/-- C5 counterexample: on the buffer `"𝄞abc"` and the remove message
`{start := 2, text := "a"}`, `handle_file_edit` of `anycode-backend-rust`
derives the span from the CHAR count of `text` and uses `start` directly as
a char offset, removing `"b"` (result `"𝄞ac"`), whereas the UTF-16
interpretation the claim prescribes (as implemented by `handle_change`)
removes `"a"` (result `"𝄞bc"`): the claim is false for this inbound edit
message. -/
theorem file_edit_remove_not_utf16 :
    (handle_file_edit_remove docAstral 2 "a".data).map (fun c => c.text)
        = some "𝄞ac".data ∧
    (handle_change_remove docAstral 2 "a".data).map (fun c => c.text)
        = some "𝄞bc".data ∧
    ("𝄞ac".data : List Char) ≠ "𝄞bc".data := by
  exact ⟨by decide, by decide, by decide⟩

/-- C4 (amended, for `get_or_create_code` of `anycode-backend`): when the
path has no registry entry and the load from disk fails, the error is
returned to the caller and no entry is inserted — the registry is exactly
as before the call. -/
theorem get_or_create_code_load_failure (f2c : List (String × Code))
    (path : String) (h : rget f2c path = none) :
    get_or_create_code f2c path none = (f2c, none) := by
  unfold get_or_create_code
  rw [h]

/-- Witness for `get_or_create_code_load_failure` on the empty registry. -/
theorem get_or_create_code_load_failure_witness :
    rget [] "/w/a" = none ∧
    get_or_create_code [] "/w/a" none = ([], none) :=
  ⟨by decide, get_or_create_code_load_failure [] "/w/a" (by decide)⟩

/-- C4 counterexample: `handle_file_open` of `anycode-backend-rust` calls
`Code::from_file(..).unwrap()` inside `or_insert_with_key`; when the first
load fails the handler PANICS (the embedding's outer `none`) instead of
returning a load error response to the caller — there is no registry/ack
outcome at all. -/
theorem file_open_load_failure_aborts :
    handle_file_open canonEx loadFailEx [] "/w/a" = none := by
  decide

/-- C9: a whole-content `file:set` for a file that exists on disk (its path
canonicalizes, hence `Path::exists` is true) but has no registry entry yet:
the fresh `Code::new()` entry keeps `abs_path == ""` (`ensure_file_exists`
only assigns `abs_path` in its not-yet-existing branch), so `save_file`
attempts `File::create("")`, which fails; the handler replaces the
in-memory content but persists nothing and acks FAILURE, contradicting the
claim that the text is persisted and success reported. -/
theorem file_set_unregistered_fails (f2c : List (String × Code)) (p : String)
    (tx : List Char) (mk cr : IoResult) (ar : Option String)
    (ca : String → IoResult) (wr : IoResult)
    (hmiss : rget f2c p = none) (hca : ca "" = IoResult.err) :
    handle_file_set f2c p tx true mk cr ar ca wr
      = (rset f2c p
          { Code.new with file_name := p, text := tx, changed := true },
         false) := by
  unfold handle_file_set Code.set_file_name Code.ensure_file_exists
    Code.set_text Code.save_file
  rw [hmiss]
  simp only [Option.getD_none]
  simp
  rw [show ca Code.new.abs_path = IoResult.err from hca]
  exact ⟨rfl, fun h => IoResult.noConfusion h⟩

/-- Witness for `file_set_unregistered_fails`: empty registry, existing file
`/w/x`, content `"h"`, with the concrete `File::create` oracle. -/
theorem file_set_unregistered_fails_witness :
    rget [] "/w/x" = none ∧
    createAtEx "" = IoResult.err ∧
    handle_file_set [] "/w/x" "h".data true IoResult.ok IoResult.ok none
        createAtEx IoResult.ok
      = (rset [] "/w/x"
          { Code.new with
            file_name := "/w/x"
            text := "h".data
            changed := true },
         false) :=
  ⟨by decide, by decide,
   file_set_unregistered_fails [] "/w/x" "h".data IoResult.ok IoResult.ok
     none createAtEx IoResult.ok (by decide) (by decide)⟩

/-- C1: the registry is NOT keyed by canonical path everywhere —
`handle_hover` (like `handle_definition` and `handle_references` in
`lsp_handler.rs`) keys `file2code` by the RAW `request.file` while
`handle_file_open` / `handle_file_edit` key it by the canonicalized path.
Concretely: open `/w/a`, edit it through the spelling `./a` (which
canonicalizes to `/w/a` and lands on the shared entry), then hover through
`./a`: the registry ends with TWO Documents for the one canonical path
`/w/a`, and the edit applied through one spelling is invisible in the
document the other spelling now resolves to. -/
theorem hover_raw_path_duplicates_document :
    handle_file_open canonEx loadEx [] "/w/a" = some (reg1, some "x".data) ∧
    handle_file_edit_ins canonEx loadEx reg1 "./a" "Z".data 0 = some reg2 ∧
    handle_hover canonEx loadEx reg2 "./a" = some reg3 ∧
    canonEx "./a" = canonEx "/w/a" ∧
    (rget reg3 "/w/a").map (fun c => c.text) = some "Zx".data ∧
    (rget reg3 "./a").map (fun c => c.text) = some "x".data ∧
    reg3.length = 2 := by
  decide

lemma lineStart_append (pre suf : List Char) :
    ∀ row, row ≤ pre.count '\n' → lineStart (pre ++ suf) row = lineStart pre row := by
  induction pre with
  | nil =>
    intro row h
    simp only [List.count_nil, Nat.le_zero] at h
    subst h
    simp [lineStart]
  | cons c p ih =>
    intro row h
    cases row with
    | zero => simp [lineStart]
    | succ r =>
      by_cases hc : c = '\n'
      · subst hc
        simp only [List.cons_append, lineStart, List.append_eq,
          eq_self_iff_true, if_true]
        have hcount : ('\n' :: p).count '\n' = p.count '\n' + 1 := by
          simp [List.count_cons]
        rw [ih r (by omega)]
      · simp only [List.cons_append, lineStart, List.append_eq, if_neg hc]
        have hcount : (c :: p).count '\n' = p.count '\n' := by
          simp [List.count_cons, hc]
        rw [ih (r + 1) (by omega)]

lemma lineToChar_of_le (b : List Char) (row : Nat) (h : row ≤ b.count '\n') :
    lineToChar b row = some (lineStart b row) := by
  unfold lineToChar
  rw [if_pos h]

lemma insert_text_spec (c : Code) (t : List Char) (row col ls : Nat)
    (hrow : lineToChar c.text row = some ls)
    (hle : ls + col ≤ c.text.length) :
    c.insert_text t row col = some
      { c with
        text := c.text.take (ls + col) ++ t ++ c.text.drop (ls + col)
        changed := true
        undo_history :=
          { start := ls + col, operation := Operation.Insert, text := t,
            row := row, column := col } :: c.undo_history
        redo_history := [] } := by
  unfold Code.insert_text Code.insert ropeInsert
  rw [hrow]
  simp only [Option.some_bind]
  rw [if_pos hle]
  rfl

lemma remove_text_spec (c : Code) (row col row1 col1 ls ls1 : Nat)
    (hrow : lineToChar c.text row = some ls)
    (hrow1 : lineToChar c.text row1 = some ls1)
    (hft : ls + col ≤ ls1 + col1)
    (ht : ls1 + col1 ≤ c.text.length) :
    c.remove_text row col row1 col1 = some
      { c with
        text := c.text.take (ls + col) ++ c.text.drop (ls1 + col1)
        changed := true
        undo_history :=
          { start := ls + col, operation := Operation.Remove,
            text := (c.text.take (ls1 + col1)).drop (ls + col),
            row := row1, column := col1 } :: c.undo_history
        redo_history := [] } := by
  unfold Code.remove_text ropeSlice Code.remove ropeRemove
  rw [hrow, hrow1]
  simp only [Option.some_bind]
  rw [if_pos ⟨hft, ht⟩]
  simp only [Option.some_bind]
  rw [if_pos ⟨hft, ht⟩]
  rfl

lemma undo_of_replace_group (fn ap lg : String) (ch : Bool)
    (H Hr : List Change) (pre mid post tx : List Char)
    (row col row1 col1 : Nat) :
    Code.undo
      { file_name := fn
        abs_path := ap
        lang := lg
        text := pre ++ tx ++ post
        changed := ch
        undo_history :=
          { start := pre.length, operation := Operation.End, text := [],
            row := row1, column := col1 } ::
          { start := pre.length, operation := Operation.Insert, text := tx,
            row := row, column := col } ::
          { start := pre.length, operation := Operation.Remove, text := mid,
            row := row1, column := col1 } ::
          { start := pre.length, operation := Operation.Start, text := [],
            row := row1, column := col1 } :: H
        redo_history := Hr }
      = some
        ({ file_name := fn
           abs_path := ap
           lang := lg
           text := pre ++ mid ++ post
           changed := true
           undo_history := H
           redo_history :=
             { start := pre.length, operation := Operation.Remove, text := mid,
               row := row1, column := col1 } ::
             { start := pre.length, operation := Operation.Insert, text := tx,
               row := row, column := col } :: Hr },
         some ⟨[{ start := pre.length, operation := Operation.Insert, text := tx,
                  row := row, column := col },
                { start := pre.length, operation := Operation.Remove, text := mid,
                  row := row1, column := col1 }]⟩) := by
  have h1 : ropeRemove (pre ++ tx ++ post) pre.length (pre.length + tx.length)
      = some (pre ++ post) := by
    unfold ropeRemove
    rw [if_pos]
    · rw [take_head_of_three, drop_end_of_three]
    · constructor
      · omega
      · simp [List.length_append]
  have h2 : ropeInsert (pre ++ post) pre.length mid = some (pre ++ mid ++ post) := by
    unfold ropeInsert
    rw [if_pos]
    · rw [List.take_left, List.drop_left]
    · simp [List.length_append]
  unfold Code.undo
  simp only [undoGo, h1, h2, Option.some_bind, if_true, List.nil_append]
  rfl

lemma insert_text_append_spec (c : Code) (t pre post : List Char)
    (row col ls : Nat)
    (htext : c.text = pre ++ post)
    (hlen : pre.length = ls + col)
    (hrow : lineToChar c.text row = some ls) :
    c.insert_text t row col = some
      { c with
        text := pre ++ t ++ post
        changed := true
        undo_history :=
          { start := ls + col, operation := Operation.Insert, text := t,
            row := row, column := col } :: c.undo_history
        redo_history := [] } := by
  unfold Code.insert_text Code.insert ropeInsert
  rw [hrow]
  simp only [Option.some_bind]
  rw [htext, ← hlen]
  rw [if_pos (by rw [List.length_append]; exact Nat.le_add_right _ _)]
  rw [List.take_left, List.drop_left]
  rfl

lemma remove_text_append_spec (c : Code) (pre mid post : List Char)
    (row col row1 col1 ls ls1 : Nat)
    (htext : c.text = pre ++ mid ++ post)
    (hlen : pre.length = ls + col)
    (hlen2 : (pre ++ mid).length = ls1 + col1)
    (hrow : lineToChar c.text row = some ls)
    (hrow1 : lineToChar c.text row1 = some ls1) :
    c.remove_text row col row1 col1 = some
      { c with
        text := pre ++ post
        changed := true
        undo_history :=
          { start := ls + col, operation := Operation.Remove, text := mid,
            row := row1, column := col1 } :: c.undo_history
        redo_history := [] } := by
  unfold Code.remove_text ropeSlice Code.remove ropeRemove
  rw [hrow, hrow1]
  simp only [Option.some_bind]
  rw [htext, ← hlen, ← hlen2]
  have hc : pre.length ≤ (pre ++ mid).length ∧
      (pre ++ mid).length ≤ (pre ++ mid ++ post).length := by
    constructor
    · rw [List.length_append]
      exact Nat.le_add_right _ _
    · rw [List.length_append (pre ++ mid) post]
      exact Nat.le_add_right _ _
  rw [if_pos hc]
  rw [List.take_left (pre ++ mid) post, List.drop_left pre mid]
  simp only [Option.some_bind]
  rw [if_pos hc]
  rw [List.length_append pre mid, take_head_of_three, drop_end_of_three]
  rfl

lemma replace_text_append_spec (c : Code) (pre mid post tx : List Char)
    (row col row1 col1 ls ls1 : Nat)
    (htext : c.text = pre ++ mid ++ post)
    (hlen : pre.length = ls + col)
    (hlen2 : (pre ++ mid).length = ls1 + col1)
    (hrow : lineToChar c.text row = some ls)
    (hrow1 : lineToChar c.text row1 = some ls1)
    (hrow2 : lineToChar (pre ++ post) row = some ls) :
    c.replace_text row col row1 col1 tx = some
      { c with
        text := pre ++ tx ++ post
        changed := true
        undo_history :=
          { start := ls + col, operation := Operation.End, text := [],
            row := row1, column := col1 } ::
          { start := ls + col, operation := Operation.Insert, text := tx,
            row := row, column := col } ::
          { start := ls + col, operation := Operation.Remove, text := mid,
            row := row1, column := col1 } ::
          { start := ls + col, operation := Operation.Start, text := [],
            row := row1, column := col1 } :: c.undo_history
        redo_history := [] } := by
  unfold Code.replace_text
  rw [hrow]
  simp only [Option.some_bind]
  rw [remove_text_append_spec
      { c with
        undo_history :=
          { start := ls + col, operation := Operation.Start, text := [],
            row := row1, column := col1 } :: c.undo_history }
      pre mid post row col row1 col1 ls ls1 htext hlen hlen2 hrow hrow1]
  simp only [Option.some_bind]
  rw [insert_text_append_spec
      { c with
        text := pre ++ post
        changed := true
        undo_history :=
          { start := ls + col, operation := Operation.Remove, text := mid,
            row := row1, column := col1 } ::
          { start := ls + col, operation := Operation.Start, text := [],
            row := row1, column := col1 } :: c.undo_history
        redo_history := [] }
      tx pre post row col ls rfl hlen hrow2]
  simp only [Option.map_some']

/-- C3: for every buffer state and valid replace range, `replace_text` pushes
`[GroupStart, Remove-entry, Insert-entry, GroupEnd]` (in push order; the
head of the embedded stack list is the top) onto the undo stack, and a
single subsequent `undo()` reverts the whole replacement, restoring the
buffer content exactly as it was before the replace.  The hypotheses state
that `(row,col)`/`(row1,col1)` address a valid, ordered, in-bounds range
(`hnl` says column `col` lies within line `row`). -/
theorem replace_undo_single_group (c : Code) (row col row1 col1 : Nat)
    (tx : List Char) (ls ls1 : Nat)
    (hrow : lineToChar c.text row = some ls)
    (hrow1 : lineToChar c.text row1 = some ls1)
    (hft : ls + col ≤ ls1 + col1)
    (ht : ls1 + col1 ≤ c.text.length)
    (hnl : (c.text.take (ls + col)).count '\n' = row) :
    ∃ c3,
      c.replace_text row col row1 col1 tx = some c3 ∧
      c3.undo_history =
        { start := ls + col, operation := Operation.End, text := [],
          row := row1, column := col1 } ::
        { start := ls + col, operation := Operation.Insert, text := tx,
          row := row, column := col } ::
        { start := ls + col, operation := Operation.Remove,
          text := (c.text.take (ls1 + col1)).drop (ls + col),
          row := row1, column := col1 } ::
        { start := ls + col, operation := Operation.Start, text := [],
          row := row1, column := col1 } :: c.undo_history ∧
      c3.text = c.text.take (ls + col) ++ tx ++ c.text.drop (ls1 + col1) ∧
      c3.redo_history = [] ∧
      ∃ c4 mc, c3.undo = some (c4, some mc) ∧
        c4.text = c.text ∧ c4.undo_history = c.undo_history := by
  have hfle : ls + col ≤ c.text.length := le_trans hft ht
  have hlen : (c.text.take (ls + col)).length = ls + col := by
    rw [List.length_take]
    exact Nat.min_eq_left hfle
  have hpm : c.text.take (ls + col) ++ (c.text.take (ls1 + col1)).drop (ls + col)
      = c.text.take (ls1 + col1) := by
    have h1 : c.text.take (ls + col) = (c.text.take (ls1 + col1)).take (ls + col) := by
      rw [List.take_take, Nat.min_eq_left hft]
    rw [h1, List.take_append_drop]
  have hlen2 : (c.text.take (ls + col)
      ++ (c.text.take (ls1 + col1)).drop (ls + col)).length = ls1 + col1 := by
    rw [hpm, List.length_take]
    exact Nat.min_eq_left ht
  have htext : c.text = c.text.take (ls + col)
      ++ (c.text.take (ls1 + col1)).drop (ls + col) ++ c.text.drop (ls1 + col1) := by
    rw [hpm, List.take_append_drop]
  have hinpre : row ≤ (c.text.take (ls + col)).count '\n' := le_of_eq hnl.symm
  have hlspre : lineStart (c.text.take (ls + col)) row = ls := by
    have hrowle : row ≤ c.text.count '\n' := by
      rw [← hnl]
      exact (List.take_sublist (ls + col) c.text).count_le '\n'
    have hx := lineStart_append (c.text.take (ls + col))
      (c.text.drop (ls + col)) row hinpre
    rw [List.take_append_drop] at hx
    have hls : ls = lineStart c.text row := by
      rw [lineToChar_of_le c.text row hrowle] at hrow
      exact (Option.some.inj hrow).symm
    rw [← hx, ← hls]
  have hrow2 : lineToChar (c.text.take (ls + col) ++ c.text.drop (ls1 + col1)) row
      = some ls := by
    have hcnt : row ≤ (c.text.take (ls + col)
        ++ c.text.drop (ls1 + col1)).count '\n' := by
      rw [List.count_append]
      calc row = (c.text.take (ls + col)).count '\n' := hnl.symm
        _ ≤ _ := Nat.le_add_right _ _
    rw [lineToChar_of_le _ _ hcnt, lineStart_append _ _ row hinpre, hlspre]
  have hrepl := replace_text_append_spec c (c.text.take (ls + col))
    ((c.text.take (ls1 + col1)).drop (ls + col)) (c.text.drop (ls1 + col1)) tx
    row col row1 col1 ls ls1 htext hlen hlen2 hrow hrow1 hrow2
  refine ⟨_, hrepl, rfl, rfl, rfl, ?_⟩
  have hu := undo_of_replace_group c.file_name c.abs_path c.lang true
    c.undo_history [] (c.text.take (ls + col))
    ((c.text.take (ls1 + col1)).drop (ls + col)) (c.text.drop (ls1 + col1)) tx
    row col row1 col1
  rw [hlen] at hu
  exact ⟨_, _, hu, htext.symm, rfl⟩

/-- Witness for `replace_undo_single_group`: the spec's own example —
`replaceText((0,0),(0,5),"HELLO")` on `"hello world"` followed by one
`undo()` restores `"hello world"`. -/
theorem replace_undo_single_group_witness :
    lineToChar docHW.text 0 = some 0 ∧
    (0 + 0 : Nat) ≤ 0 + 5 ∧
    (0 + 5 : Nat) ≤ docHW.text.length ∧
    (docHW.text.take (0 + 0)).count '\n' = 0 ∧
    (∃ c3,
      docHW.replace_text 0 0 0 5 "HELLO".data = some c3 ∧
      c3.undo_history =
        { start := 0 + 0, operation := Operation.End, text := [],
          row := 0, column := 5 } ::
        { start := 0 + 0, operation := Operation.Insert, text := "HELLO".data,
          row := 0, column := 0 } ::
        { start := 0 + 0, operation := Operation.Remove,
          text := (docHW.text.take (0 + 5)).drop (0 + 0),
          row := 0, column := 5 } ::
        { start := 0 + 0, operation := Operation.Start, text := [],
          row := 0, column := 5 } :: docHW.undo_history ∧
      c3.text = docHW.text.take (0 + 0) ++ "HELLO".data
        ++ docHW.text.drop (0 + 5) ∧
      c3.redo_history = [] ∧
      ∃ c4 mc, c3.undo = some (c4, some mc) ∧
        c4.text = docHW.text ∧ c4.undo_history = docHW.undo_history) :=
  ⟨by decide, by decide, by decide, by decide,
   replace_undo_single_group docHW 0 0 0 5 "HELLO".data 0 0
     (by decide) (by decide) (by decide) (by decide) (by decide)⟩
